import Mathlib

set_option maxRecDepth 8000

namespace RecordingTool

/-!
Shallow embedding of `recording_tool` (`src/sipgate_mic_monitor.py` and
`src/sipgate_mic_monitor_new.py`).

Time is modelled as `Nat` (seconds); every per-tick value of `time.time()`
is passed in explicitly as `now`.  Transport / probe failures are modelled
as explicit outcome parameters.
-/

/-! ## Call-detection state machine

From `main` in `src/sipgate_mic_monitor.py`, lines 583-632: the per-tick
block manipulating `recording`, `call_start_time`, `call_detection_logged`
and issuing `call_obs("start")` / `call_obs("stop")`.
-/

/-- The mutable loop variables of `main` that drive call detection:
`recording`, `call_start_time` (`none` = Python `None`), and
`call_detection_logged`. -/
structure MonState where
  recording : Bool
  callStart : Option Nat
  logged : Bool
deriving DecidableEq, Repr

/-- Recorder commands issued by the loop: `call_obs("start")` is the
`CallConfirmed` event, `call_obs("stop")` the `CallEnded` event. -/
inductive MonEvent where
  | callConfirmed
  | callEnded
deriving DecidableEq, Repr

/-- Initial loop state of `main`: `recording = False`,
`call_start_time = None`, `call_detection_logged = False`. -/
def monInit : MonState := ⟨false, none, false⟩

/-- One poll tick of the call-detection block of `main`
(`src/sipgate_mic_monitor.py` lines 583-632) at wall-clock time `now`
with activity sample `active`, for thresholds
`cdt = CALL_DURATION_THRESHOLD` and `rd = RECORDING_DELAY`.
Returns the updated loop variables and the recorder command issued at
this tick, if any. -/
def monTick (cdt rd now : Nat) (active : Bool) (s : MonState) : MonState × Option MonEvent :=
  match active, s.callStart with
  | true, cs =>
    let start := cs.getD now
    let logged0 := match cs with | none => false | some _ => s.logged
    if cdt ≤ now - start then
      if s.recording = false ∧ rd ≤ now - start then
        (⟨true, some start, true⟩, some MonEvent.callConfirmed)
      else
        (⟨s.recording, some start, true⟩, none)
    else
      (⟨s.recording, some start, logged0⟩, none)
  | false, none => (s, none)
  | false, some start =>
    if now - start < cdt then
      (⟨s.recording, none, false⟩, none)
    else if s.recording then
      (⟨false, none, false⟩, some MonEvent.callEnded)
    else
      (⟨s.recording, none, false⟩, none)

/-- The per-tick event trace of the poll loop run on a list of
`(time, active)` samples from state `s`. -/
def monEvents (cdt rd : Nat) : MonState → List (Nat × Bool) → List (Option MonEvent)
  | _, [] => []
  | s, (now, a) :: rest =>
    (monTick cdt rd now a s).2 :: monEvents cdt rd (monTick cdt rd now a s).1 rest

/-! ## ProcessSafeMicChecker

From `src/sipgate_mic_monitor.py` lines 355-488.  The worker process is
abstracted to its supervisor-visible counters; the outcome of one
`CHECK` round trip is an explicit parameter (`some b` = a response
arrived within the timeout, `none` = `queue.get` timed out or any other
transport error was raised inside the `try` block).
-/

/-- Supervisor-visible state of `ProcessSafeMicChecker`: whether the
worker process is alive, `worker_start_time`, `check_count` and
`consecutive_errors`.  `workerStartTime = 0` plays the role of the falsy
values (`None` or `0.0`) skipped by the age test. -/
structure CheckerState where
  alive : Bool
  workerStartTime : Nat
  checkCount : Nat
  consecutiveErrors : Nat
deriving DecidableEq, Repr

/-- Constant `self.max_worker_lifetime = 600`. -/
def maxWorkerLifetime : Nat := 600

/-- Constant `self.max_checks_per_worker = 500`. -/
def maxChecksPerWorker : Nat := 500

/-- Constant `self.max_consecutive_errors = 3`. -/
def maxConsecutiveErrors : Nat := 3

/-- Embedding of `ProcessSafeMicChecker.start_worker` (lines 368-381): spawns a fresh
worker and resets `worker_start_time`, `check_count` and
`consecutive_errors`. -/
def start_worker (now : Nat) (_s : CheckerState) : CheckerState :=
  ⟨true, now, 0, 0⟩

/-- Embedding of `ProcessSafeMicChecker.should_restart_worker` (lines 383-405).
The age test reproduces Python's
`if self.worker_start_time and (current_time - self.worker_start_time) > self.max_worker_lifetime`,
including the truthiness guard on `worker_start_time`. -/
def should_restart_worker (s : CheckerState) (now : Nat) : Bool :=
  if s.alive = false then true
  else if s.workerStartTime ≠ 0 ∧ now - s.workerStartTime > maxWorkerLifetime then true
  else if s.checkCount > maxChecksPerWorker then true
  else if s.consecutiveErrors ≥ maxConsecutiveErrors then true
  else false

/-- Result of one `check_mic` call: the returned boolean, the post-call
state, and whether the preventive (top-of-call) and in-error-path
restarts fired. -/
structure CheckMicResult where
  result : Bool
  state : CheckerState
  preventiveRestart : Bool
  errorRestart : Bool
deriving DecidableEq, Repr

/-- Embedding of `ProcessSafeMicChecker.check_mic` (lines 407-444) at time `now`.
`outcome = some b`: the worker answered `b` within the timeout;
`outcome = none`: `queue.get(timeout=3)` (or any other statement of the
`try` block) raised, taking the `except` path that increments
`consecutive_errors`, restarts the worker when the incremented counter
reaches the hardcoded bound 2, and returns `False`. -/
def check_mic (now : Nat) (outcome : Option Bool) (s : CheckerState) : CheckMicResult :=
  let pre := should_restart_worker s now
  let s1 := if pre then start_worker now s else s
  let s2 : CheckerState := ⟨s1.alive, s1.workerStartTime, s1.checkCount + 1, s1.consecutiveErrors⟩
  match outcome with
  | some b =>
    ⟨b, ⟨s2.alive, s2.workerStartTime, s2.checkCount, 0⟩, pre, false⟩
  | none =>
    let e := s2.consecutiveErrors + 1
    if 2 ≤ e then
      ⟨false, start_worker now ⟨s2.alive, s2.workerStartTime, s2.checkCount, e⟩, pre, true⟩
    else
      ⟨false, ⟨s2.alive, s2.workerStartTime, s2.checkCount, e⟩, pre, false⟩

/-- Checker state after `__init__` (lines 356-366), which ends by calling
`start_worker` at time `t0`. -/
def checkerInit (t0 : Nat) : CheckerState := start_worker t0 ⟨false, 0, 0, 0⟩

/-- The sequence of states at which successive `check_mic` calls begin
(the state each call's `should_restart_worker` evaluation sees), for a
list of `(time, outcome)` call descriptions. -/
def checkPreStates : CheckerState → List (Nat × Option Bool) → List CheckerState
  | _, [] => []
  | s, (now, o) :: rest => s :: checkPreStates (check_mic now o s).state rest

/-! ## Orchestrator fallback switching

From `main` in `src/sipgate_mic_monitor.py`, lines 541-577: the
`use_fallback` / `error_count` logic choosing between the primary
process-isolated checker and `check_sipgate_mic_wmi`.
-/

/-- Orchestrator-level probe-selection state: `use_fallback` and the
orchestrator's own `error_count` (independent of the checker's
`consecutive_errors`). -/
structure OrchProbeState where
  useFallback : Bool
  errorCount : Nat
deriving DecidableEq, Repr

/-- Outcome of `mic_checker.check_mic()` as seen by the orchestrator's
`try` block: a returned value, or a raised exception. -/
inductive PrimaryOutcome where
  | value (b : Bool)
  | raised
deriving DecidableEq, Repr

/-- Which probe produced the tick's `active` value. -/
inductive ProbeSource where
  | primary
  | wmiFallback
deriving DecidableEq, Repr

/-- Constant `max_consecutive_errors = 10` in `main` (line 542), the
orchestrator-level threshold. -/
def orchMaxConsecutiveErrors : Nat := 10

/-- Embedding of `check_sipgate_mic_wmi` (lines 493-509): returns whether a
`Sipgate.exe` process exists (existence-of-process semantics, not
active-session semantics); any failure, including an unavailable `wmi`
module, yields `False`. -/
def check_sipgate_mic_wmi (sipgateProcessExists wmiOk : Bool) : Bool :=
  if wmiOk then sipgateProcessExists else false

/-- One orchestrator tick of the probe-selection block (lines 559-577):
returns the updated selection state, the `active` value used by the
tick, and which probe produced it. -/
def orchProbeTick (s : OrchProbeState) (primary : PrimaryOutcome)
    (sipgateProcessExists wmiOk : Bool) : OrchProbeState × Bool × ProbeSource :=
  if s.useFallback then
    (s, check_sipgate_mic_wmi sipgateProcessExists wmiOk, ProbeSource.wmiFallback)
  else
    match primary with
    | PrimaryOutcome.value b => (⟨s.useFallback, 0⟩, b, ProbeSource.primary)
    | PrimaryOutcome.raised =>
      let e := s.errorCount + 1
      if e ≥ orchMaxConsecutiveErrors then
        (⟨true, e⟩, check_sipgate_mic_wmi sipgateProcessExists wmiOk, ProbeSource.wmiFallback)
      else
        (⟨s.useFallback, e⟩, false, ProbeSource.primary)

/-- Run of the probe-selection logic on a list of per-tick inputs,
returning for every tick the post-state, the `active` value and the
probe source. -/
def orchRun : OrchProbeState → List (PrimaryOutcome × Bool × Bool) →
    List (OrchProbeState × Bool × ProbeSource)
  | _, [] => []
  | s, (p, pe, ok) :: rest =>
    let o := orchProbeTick s p pe ok
    o :: orchRun o.1 rest

/-- Final probe-selection state after a run. -/
def orchFinal (s : OrchProbeState) (inputs : List (PrimaryOutcome × Bool × Bool)) :
    OrchProbeState :=
  inputs.foldl (fun st i => (orchProbeTick st i.1 i.2.1 i.2.2).1) s

/-! ## COM worker process

From `com_worker_process` in `src/sipgate_mic_monitor.py`,
lines 242-350.  One queue carries both textual commands and boolean
responses; the session scan is abstracted to its outcome (`Except.ok b`
= the scan completed with result `b`, `Except.error ()` = some statement
of the scan's `try` block raised, taking the `except` branch that puts
`False`).
-/

/-- One iteration's input to the worker loop: a `CHECK` command with the
probe outcome it will observe, an `EXIT` command, or a
`queue.get(timeout=2)` timeout. -/
inductive WorkerIn where
  | cmdCheck (probe : Except Unit Bool)
  | cmdExit
  | queueTimeout
deriving Repr

/-- An item on the shared command/response queue: a textual command or a
boolean response. -/
inductive QueueMsg where
  | textMsg (s : String)
  | boolVal (b : Bool)
deriving DecidableEq, Repr

/-- Why the worker loop ended. -/
inductive WorkerExit where
  | plannedRestart
  | exitCommand
  | inputExhausted
deriving DecidableEq, Repr

/-- Constant `max_checks = 400` in `com_worker_process` (line 274). -/
def comWorkerMaxChecks : Nat := 400

/-- The boolean the worker puts on the queue for one `CHECK`: the scan
result on success, `False` when the scan raised (line 318,
`queue.put(False)`). -/
def probeResponse : Except Unit Bool → Bool
  | Except.ok b => b
  | Except.error _ => false

/-- The worker's `while check_count < max_checks` loop (lines 276-329),
started with served-count `count`.  Returns the messages the worker put
on the queue, the final served count, and the exit reason
(`plannedRestart` = the self-limit was reached, `exitCommand` = an
`EXIT` command was received, `inputExhausted` = the modelled input
stream ended). -/
def com_worker_loop : Nat → List WorkerIn → List QueueMsg × Nat × WorkerExit
  | count, [] =>
    if comWorkerMaxChecks ≤ count then ([], count, WorkerExit.plannedRestart)
    else ([], count, WorkerExit.inputExhausted)
  | count, i :: rest =>
    if comWorkerMaxChecks ≤ count then ([], count, WorkerExit.plannedRestart)
    else
      match i with
      | WorkerIn.cmdCheck probe =>
        let out := com_worker_loop (count + 1) rest
        (QueueMsg.boolVal (probeResponse probe) :: out.1, out.2)
      | WorkerIn.cmdExit => ([], count, WorkerExit.exitCommand)
      | WorkerIn.queueTimeout => com_worker_loop count rest

/-- Embedding of the stale-response drain at the top of `check_mic`
(lines 416-423): `get_nowait` is called while the queue is nonempty, at
most 10 times, so up to 10 items are popped from the front. -/
def drainQueue : Nat → List QueueMsg → List QueueMsg
  | _, [] => []
  | 0, q => q
  | Nat.succ n, _ :: rest => drainQueue n rest

/-- Channel-level embedding of one `check_mic` round trip over the
single shared queue (lines 415-432; `response_queue` is created at line
373 but never used, so commands and responses travel on the same
queue).  After draining stale items, `check_mic` puts the textual
command `"CHECK"` and then calls `queue.get(timeout=3)`.
`workerFirst = true` means the worker was blocked in its own
`queue.get` and dequeued the head first, serving a `"CHECK"` head with
the boolean `resp` (any other head is consumed without a response:
`"EXIT"` breaks the loop, anything else matches no branch);
`workerFirst = false` means the worker had not yet reached its `get`
(for example, still initialising COM right after a restart), so
`check_mic`'s own `get` dequeues the head itself.  The result is the
value `check_mic` receives, `none` standing for an empty queue at the
`get` (a timeout). -/
def check_mic_receive (stale : List QueueMsg) (workerFirst : Bool) (resp : Bool) :
    Option QueueMsg :=
  let q := drainQueue 10 stale ++ [QueueMsg.textMsg "CHECK"]
  if workerFirst then
    match q with
    | [] => none
    | QueueMsg.textMsg s :: rest =>
      if s = "CHECK" then (rest ++ [QueueMsg.boolVal resp]).head?
      else rest.head?
    | QueueMsg.boolVal _ :: rest => rest.head?
  else q.head?

/-! ## Shutdown paths

`src/sipgate_mic_monitor.py` lines 652-658 (the `except
KeyboardInterrupt` / `finally` block of `main`) and
`src/sipgate_mic_monitor_new.py` lines 301-313 (the corresponding block
of its `main`).
-/

/-- External effects a shutdown path can perform, in order. -/
inductive ShutdownAction where
  | stopRecorder
  | teardownWorker
  | teardownCom
deriving DecidableEq, Repr

/-- Shutdown effects of `main` in `src/sipgate_mic_monitor.py`
(lines 652-658): the interrupt handler only logs, and the `finally`
block calls `mic_checker.cleanup()`; no recorder command is issued,
whatever the value of `recording`. -/
def shutdownActionsMain (_recording : Bool) : List ShutdownAction :=
  [ShutdownAction.teardownWorker]

/-- Shutdown effects of `main` in `src/sipgate_mic_monitor_new.py`
(lines 301-313): on `KeyboardInterrupt`, `call_obs("stop")` is issued
when `recording` is set, then the `finally` block calls
`cleanup_com()`. -/
def shutdownActionsNew (recording : Bool) : List ShutdownAction :=
  (if recording then [ShutdownAction.stopRecorder] else []) ++ [ShutdownAction.teardownCom]

/-! ## Worker lifecycle: `cleanup` and `start_worker` at process level

From `ProcessSafeMicChecker.cleanup` (lines 446-488) and
`start_worker` (lines 368-381).  Worker processes are identified by
`Nat` ids; `aliveWorkers` is the set of worker processes still running;
the behaviour record says which teardown signals the old worker reacts
to within the bounded `join` that follows each signal.
-/

/-- Whether the worker process ends within the bounded wait after each
escalation step of `cleanup`: the graceful `EXIT` + `join(3)`, the
`terminate()` + `join(3)`, and the `kill()` + `join(2)`. -/
structure WorkerBehavior where
  exitsOnGraceful : Bool
  diesOnTerminate : Bool
  diesOnKill : Bool
deriving DecidableEq, Repr

/-- Process-level state of the checker: the current handle
(`self.process`), the ids of worker processes actually running, and the
next fresh id. -/
structure LifecycleState where
  worker : Option Nat
  aliveWorkers : List Nat
  nextId : Nat
deriving DecidableEq, Repr

/-- Embedding of `ProcessSafeMicChecker.cleanup` (lines 446-488): when the current
handle exists and is alive, escalate graceful → terminate → kill, each
followed by a bounded join; after the kill no further aliveness check is
made; in every alive-branch exit the handle is cleared. -/
def cleanup_worker (b : WorkerBehavior) (s : LifecycleState) : LifecycleState :=
  match s.worker with
  | none => s
  | some w =>
    if w ∈ s.aliveWorkers then
      let a1 := if b.exitsOnGraceful then s.aliveWorkers.erase w else s.aliveWorkers
      if w ∈ a1 then
        let a2 := if b.diesOnTerminate then a1.erase w else a1
        if w ∈ a2 then
          let a3 := if b.diesOnKill then a2.erase w else a2
          ⟨none, a3, s.nextId⟩
        else ⟨none, a2, s.nextId⟩
      else ⟨none, a1, s.nextId⟩
    else s

/-- Embedding of `ProcessSafeMicChecker.start_worker` at process level (lines
368-381): runs `cleanup` first, then spawns a fresh worker process. -/
def start_worker_proc (b : WorkerBehavior) (s : LifecycleState) : LifecycleState :=
  let c := cleanup_worker b s
  ⟨some c.nextId, c.nextId :: c.aliveWorkers, c.nextId + 1⟩

/-- The supervisor invariant claimed by the spec: every running worker
process is the one the current handle points to (hence at most one runs
when ids are not duplicated). -/
def OneWorkerInv (s : LifecycleState) : Prop :=
  s.aliveWorkers.length ≤ 1 ∧ ∀ w ∈ s.aliveWorkers, s.worker = some w

/-! # Theorems -/

/-! ## Helper lemmas about `monTick` and `monEvents` -/

theorem monEvents_cons (cdt rd now : Nat) (a : Bool) (s : MonState)
    (rest : List (Nat × Bool)) :
    monEvents cdt rd s ((now, a) :: rest) =
      (monTick cdt rd now a s).2 :: monEvents cdt rd (monTick cdt rd now a s).1 rest := rfl

theorem monTick_confirmed_inv {cdt rd now : Nat} {a : Bool} {s : MonState}
    (h : (monTick cdt rd now a s).2 = some MonEvent.callConfirmed) :
    a = true ∧ s.recording = false ∧ cdt ≤ now - s.callStart.getD now ∧
      rd ≤ now - s.callStart.getD now ∧
      (monTick cdt rd now a s).1 = ⟨true, some (s.callStart.getD now), true⟩ := by
  obtain ⟨rec, cs, lg⟩ := s
  cases a with
  | false =>
    cases cs with
    | none => simp [monTick] at h
    | some t =>
      simp only [monTick] at h
      split_ifs at h <;> simp_all
  | true =>
    cases cs with
    | none =>
      simp only [monTick, Option.getD_none] at h ⊢
      split_ifs at h ⊢ <;> simp_all
    | some t =>
      simp only [monTick, Option.getD_some] at h ⊢
      split_ifs at h ⊢ <;> simp_all

theorem monTick_ended_inv {cdt rd now : Nat} {a : Bool} {s : MonState}
    (h : (monTick cdt rd now a s).2 = some MonEvent.callEnded) :
    a = false ∧ s.recording = true ∧
      (∃ t, s.callStart = some t ∧ cdt ≤ now - t) ∧
      (monTick cdt rd now a s).1 = ⟨false, none, false⟩ := by
  obtain ⟨rec, cs, lg⟩ := s
  cases a with
  | true =>
    cases cs with
    | none =>
      simp only [monTick, Option.getD_none] at h
      split_ifs at h <;> simp_all
    | some t =>
      simp only [monTick, Option.getD_some] at h
      split_ifs at h <;> simp_all
  | false =>
    cases cs with
    | none => simp [monTick] at h
    | some t =>
      simp only [monTick] at h ⊢
      split_ifs at h ⊢ <;> simp_all

theorem monTick_none_recording {cdt rd now : Nat} {a : Bool} {s : MonState}
    (h : (monTick cdt rd now a s).2 = none) :
    (monTick cdt rd now a s).1.recording = s.recording := by
  obtain ⟨rec, cs, lg⟩ := s
  cases a with
  | false =>
    cases cs with
    | none => rfl
    | some t =>
      simp only [monTick] at h ⊢
      split_ifs at h ⊢ <;> simp_all
  | true =>
    cases cs with
    | none =>
      simp only [monTick, Option.getD_none] at h ⊢
      split_ifs at h ⊢ <;> simp_all
    | some t =>
      simp only [monTick, Option.getD_some] at h ⊢
      split_ifs at h ⊢ <;> simp_all

theorem monTick_true_callStart (cdt rd now : Nat) (s : MonState) :
    (monTick cdt rd now true s).1.callStart = some (s.callStart.getD now) := by
  obtain ⟨rec, cs, lg⟩ := s
  cases cs with
  | none =>
    simp only [monTick, Option.getD_none]
    split_ifs <;> simp_all
  | some t =>
    simp only [monTick, Option.getD_some]
    split_ifs <;> simp_all

theorem monTick_false_callStart {t cdt rd now : Nat} {s : MonState}
    (h : (monTick cdt rd now false s).1.callStart = some t) : False := by
  obtain ⟨rec, cs, lg⟩ := s
  cases cs with
  | none => simp [monTick] at h
  | some t' =>
    simp only [monTick] at h
    split_ifs at h <;> simp_all

theorem monTick_recording_inv {cdt rd now : Nat} {a : Bool} {s : MonState}
    (h : (monTick cdt rd now a s).1.recording = true) :
    s.recording = true ∨ (monTick cdt rd now a s).2 = some MonEvent.callConfirmed := by
  obtain ⟨rec, cs, lg⟩ := s
  cases a with
  | false =>
    cases cs with
    | none => exact Or.inl h
    | some t =>
      simp only [monTick] at h ⊢
      split_ifs at h ⊢ <;> simp_all
  | true =>
    cases cs with
    | none =>
      simp only [monTick, Option.getD_none] at h ⊢
      split_ifs at h ⊢ <;> simp_all
    | some t =>
      simp only [monTick, Option.getD_some] at h ⊢
      split_ifs at h ⊢ <;> simp_all

theorem monTick_forced_end {cdt rd now t : Nat} {s : MonState}
    (hrec : s.recording = true) (hcs : s.callStart = some t) (hd : cdt ≤ now - t) :
    monTick cdt rd now false s = (⟨false, none, false⟩, some MonEvent.callEnded) := by
  obtain ⟨rec, cs, lg⟩ := s
  simp only at hrec hcs
  subst hrec hcs
  simp only [monTick]
  rw [if_neg (Nat.not_lt.mpr hd)]
  simp

/-- Generalized confirm-soundness: every `callConfirmed` emitted at
index `i` of a run either belongs to a session already open at the start
state (whose activity covers the whole prefix), or to a session opened
at some index `j` of the sample list, with elapsed time at least `rd`
from the session-opening sample in either case. -/
theorem monitor_confirm_gen (cdt rd : Nat) :
    ∀ (samples : List (Nat × Bool)) (s : MonState) (i : Nat),
      (monEvents cdt rd s samples)[i]? = some (some MonEvent.callConfirmed) →
      (∃ t, s.callStart = some t ∧
         (∀ k : Nat, ∀ z : Nat × Bool, k ≤ i → samples[k]? = some z → z.2 = true) ∧
         (∃ x, samples[i]? = some x ∧ rd ≤ x.1 - t))
      ∨
      (∃ j : Nat, j ≤ i ∧
         (∃ y x, samples[j]? = some y ∧ samples[i]? = some x ∧ y.2 = true ∧
            rd ≤ x.1 - y.1) ∧
         (∀ k : Nat, ∀ z : Nat × Bool, j ≤ k → k ≤ i → samples[k]? = some z → z.2 = true) ∧
         (j = 0 → s.callStart = none) ∧
         (∀ m, j = m + 1 → ∃ w, samples[m]? = some w ∧ w.2 = false)) := by
  intro samples
  induction samples with
  | nil => intro s i h; simp [monEvents] at h
  | cons hd rest ih =>
    obtain ⟨now, a⟩ := hd
    intro s i h
    rw [monEvents_cons] at h
    cases i with
    | zero =>
      rw [List.getElem?_cons_zero] at h
      have h0 : (monTick cdt rd now a s).2 = some MonEvent.callConfirmed := Option.some.inj h
      obtain ⟨ha, hrec, hcdt, hrd, hpost⟩ := monTick_confirmed_inv h0
      subst ha
      cases hcs : s.callStart with
      | some t =>
        left
        rw [hcs, Option.getD_some] at hrd
        refine ⟨t, rfl, ?_, ⟨(now, true), List.getElem?_cons_zero, hrd⟩⟩
        intro k z hk hz
        have hk0 : k = 0 := Nat.le_zero.mp hk
        subst hk0
        rw [List.getElem?_cons_zero] at hz
        obtain rfl := Option.some.inj hz
        rfl
      | none =>
        right
        rw [hcs, Option.getD_none] at hrd
        refine ⟨0, le_refl 0,
          ⟨(now, true), (now, true), List.getElem?_cons_zero, List.getElem?_cons_zero,
            rfl, hrd⟩, ?_, fun _ => rfl, ?_⟩
        · intro k z _ hk hz
          have hk0 : k = 0 := Nat.le_zero.mp hk
          subst hk0
          rw [List.getElem?_cons_zero] at hz
          obtain rfl := Option.some.inj hz
          rfl
        · intro m hm
          exact absurd hm (Nat.succ_ne_zero m).symm
    | succ i' =>
      rw [List.getElem?_cons_succ] at h
      have IH := ih (monTick cdt rd now a s).1 i' h
      cases a with
      | true =>
        have hcs1 := monTick_true_callStart cdt rd now s
        rcases IH with ⟨t', ht', hall, x, hx, hrdx⟩ |
          ⟨j', hj'le, ⟨y, x, hy, hx, hytrue, hrdxy⟩, hall, hj0, hjsucc⟩
        · rw [hcs1] at ht'
          obtain rfl := Option.some.inj ht'
          cases hcs : s.callStart with
          | some t =>
            left
            simp only [hcs, Option.getD_some] at hrdx
            refine ⟨t, rfl, ?_, ⟨x, ?_, hrdx⟩⟩
            · intro k z hk hz
              cases k with
              | zero =>
                rw [List.getElem?_cons_zero] at hz
                obtain rfl := Option.some.inj hz
                rfl
              | succ k'' =>
                rw [List.getElem?_cons_succ] at hz
                exact hall k'' z (Nat.succ_le_succ_iff.mp hk) hz
            · rw [List.getElem?_cons_succ]; exact hx
          | none =>
            right
            simp only [hcs, Option.getD_none] at hrdx
            refine ⟨0, Nat.zero_le _,
              ⟨(now, true), x, List.getElem?_cons_zero, ?_, rfl, hrdx⟩,
              ?_, fun _ => rfl, ?_⟩
            · rw [List.getElem?_cons_succ]; exact hx
            · intro k z _ hk hz
              cases k with
              | zero =>
                rw [List.getElem?_cons_zero] at hz
                obtain rfl := Option.some.inj hz
                rfl
              | succ k'' =>
                rw [List.getElem?_cons_succ] at hz
                exact hall k'' z (Nat.succ_le_succ_iff.mp hk) hz
            · intro m hm
              exact absurd hm (Nat.succ_ne_zero m).symm
        · right
          refine ⟨j' + 1, Nat.succ_le_succ hj'le,
            ⟨y, x, ?_, ?_, hytrue, hrdxy⟩, ?_, ?_, ?_⟩
          · rw [List.getElem?_cons_succ]; exact hy
          · rw [List.getElem?_cons_succ]; exact hx
          · intro k z hk1 hk2 hz
            cases k with
            | zero => exact absurd hk1 (Nat.not_succ_le_zero j')
            | succ k'' =>
              rw [List.getElem?_cons_succ] at hz
              exact hall k'' z (Nat.succ_le_succ_iff.mp hk1) (Nat.succ_le_succ_iff.mp hk2) hz
          · intro hj; exact absurd hj (Nat.succ_ne_zero j')
          · intro m hm
            obtain rfl : m = j' := (Nat.succ.inj hm).symm
            cases m with
            | zero =>
              have := hj0 rfl
              rw [hcs1] at this
              exact absurd this (by simp)
            | succ m' =>
              obtain ⟨w, hw, hwf⟩ := hjsucc m' rfl
              refine ⟨w, ?_, hwf⟩
              rw [List.getElem?_cons_succ]; exact hw
      | false =>
        rcases IH with ⟨t', ht', _, _⟩ |
          ⟨j', hj'le, ⟨y, x, hy, hx, hytrue, hrdxy⟩, hall, hj0, hjsucc⟩
        · exact (monTick_false_callStart ht').elim
        · right
          refine ⟨j' + 1, Nat.succ_le_succ hj'le,
            ⟨y, x, ?_, ?_, hytrue, hrdxy⟩, ?_, ?_, ?_⟩
          · rw [List.getElem?_cons_succ]; exact hy
          · rw [List.getElem?_cons_succ]; exact hx
          · intro k z hk1 hk2 hz
            cases k with
            | zero => exact absurd hk1 (Nat.not_succ_le_zero j')
            | succ k'' =>
              rw [List.getElem?_cons_succ] at hz
              exact hall k'' z (Nat.succ_le_succ_iff.mp hk1) (Nat.succ_le_succ_iff.mp hk2) hz
          · intro hj; exact absurd hj (Nat.succ_ne_zero j')
          · intro m hm
            obtain rfl : m = j' := (Nat.succ.inj hm).symm
            cases m with
            | zero =>
              exact ⟨(now, false), List.getElem?_cons_zero, rfl⟩
            | succ m' =>
              obtain ⟨w, hw, hwf⟩ := hjsucc m' rfl
              refine ⟨w, ?_, hwf⟩
              rw [List.getElem?_cons_succ]; exact hw

/-- Generalized stop-pairing: every `callEnded` emitted at index `i` of
a run either follows a `callConfirmed` emitted at an earlier index of
the same run with no event in between, or closes a recording that was
already in progress at the start state, with no event before it.  The
sample times are assumed nondecreasing (the poll loop reads
`time.time()`). -/
theorem monitor_ended_gen (cdt rd : Nat) :
    ∀ (samples : List (Nat × Bool)) (s : MonState),
      List.Pairwise (fun x y : Nat × Bool => x.1 ≤ y.1) samples →
      (∀ t, s.callStart = some t → ∀ z ∈ samples, t ≤ z.1) →
      (s.recording = true → ∃ t, s.callStart = some t ∧ ∀ z ∈ samples, t + cdt ≤ z.1) →
      ∀ i : Nat, (monEvents cdt rd s samples)[i]? = some (some MonEvent.callEnded) →
        (∃ j : Nat, j < i ∧
           (monEvents cdt rd s samples)[j]? = some (some MonEvent.callConfirmed) ∧
           ∀ k : Nat, j < k → k < i → (monEvents cdt rd s samples)[k]? = some (none : Option MonEvent))
        ∨
        (s.recording = true ∧ ∀ k : Nat, k < i → (monEvents cdt rd s samples)[k]? = some (none : Option MonEvent)) := by
  intro samples
  induction samples with
  | nil => intro s _ _ _ i h; simp [monEvents] at h
  | cons hd rest ih =>
    obtain ⟨now, a⟩ := hd
    intro s hmono hcs hrec i h
    rw [monEvents_cons] at h
    have hpw := List.pairwise_cons.mp hmono
    have hhead : ∀ z ∈ rest, now ≤ z.1 := fun z hz => hpw.1 z hz
    have hrest := hpw.2
    cases i with
    | zero =>
      rw [List.getElem?_cons_zero] at h
      have h0 : (monTick cdt rd now a s).2 = some MonEvent.callEnded := Option.some.inj h
      obtain ⟨_, hr, _, _⟩ := monTick_ended_inv h0
      exact Or.inr ⟨hr, fun k hk => absurd hk (Nat.not_lt_zero k)⟩
    | succ i' =>
      rw [List.getElem?_cons_succ] at h
      have hcs' : ∀ t, (monTick cdt rd now a s).1.callStart = some t →
          ∀ z ∈ rest, t ≤ z.1 := by
        intro t ht z hz
        cases a with
        | false => exact (monTick_false_callStart ht).elim
        | true =>
          rw [monTick_true_callStart] at ht
          obtain rfl := Option.some.inj ht
          cases hc : s.callStart with
          | none => simp only [hc, Option.getD_none]; exact hhead z hz
          | some t0 =>
            simp only [hc, Option.getD_some]
            exact hcs t0 hc z (List.mem_cons_of_mem _ hz)
      have hrec' : (monTick cdt rd now a s).1.recording = true →
          ∃ t, (monTick cdt rd now a s).1.callStart = some t ∧
            ∀ z ∈ rest, t + cdt ≤ z.1 := by
        intro h1
        rcases monTick_recording_inv h1 with hsr | hconf
        · obtain ⟨t, hct, hbound⟩ := hrec hsr
          have hbnow : t + cdt ≤ now := hbound (now, a) (List.mem_cons_self _ _)
          cases a with
          | true =>
            refine ⟨t, ?_, fun z hz => hbound z (List.mem_cons_of_mem _ hz)⟩
            rw [monTick_true_callStart, hct, Option.getD_some]
          | false =>
            have hcd : cdt ≤ now - t := by omega
            have hend : monTick cdt rd now false s =
                (⟨false, none, false⟩, some MonEvent.callEnded) :=
              monTick_forced_end hsr hct hcd
            rw [hend] at h1
            simp at h1
        · obtain ⟨ha, _, hcdt, _, hpost⟩ := monTick_confirmed_inv hconf
          subst ha
          have hstart_le : s.callStart.getD now ≤ now := by
            cases hc : s.callStart with
            | none => simp [hc]
            | some t0 =>
              simp only [hc, Option.getD_some]
              exact hcs t0 hc (now, true) (List.mem_cons_self _ _)
          refine ⟨s.callStart.getD now, ?_, ?_⟩
          · rw [hpost]
          · intro z hz
            have h2 : s.callStart.getD now + cdt ≤ now := by omega
            exact le_trans h2 (hhead z hz)
      have IH := ih (monTick cdt rd now a s).1 hrest hcs' hrec' i' h
      rcases IH with ⟨j', hj'lt, hconf, hbet⟩ | ⟨hs1rec, hall⟩
      · left
        refine ⟨j' + 1, Nat.succ_lt_succ hj'lt, ?_, ?_⟩
        · rw [monEvents_cons, List.getElem?_cons_succ]; exact hconf
        · intro k hk1 hk2
          cases k with
          | zero => exact absurd hk1 (Nat.not_lt_zero _)
          | succ k'' =>
            rw [monEvents_cons, List.getElem?_cons_succ]
            exact hbet k'' (Nat.succ_lt_succ_iff.mp hk1) (Nat.succ_lt_succ_iff.mp hk2)
      · cases he0 : (monTick cdt rd now a s).2 with
        | none =>
          right
          have hsr : s.recording = true := by
            rw [← monTick_none_recording he0]; exact hs1rec
          refine ⟨hsr, ?_⟩
          intro k hk
          cases k with
          | zero => rw [monEvents_cons, List.getElem?_cons_zero, he0]
          | succ k'' =>
            rw [monEvents_cons, List.getElem?_cons_succ]
            exact hall k'' (Nat.succ_lt_succ_iff.mp hk)
        | some ev =>
          cases ev with
          | callConfirmed =>
            left
            refine ⟨0, Nat.succ_pos i', ?_, ?_⟩
            · rw [monEvents_cons, List.getElem?_cons_zero, he0]
            · intro k hk1 hk2
              cases k with
              | zero => exact absurd hk1 (lt_irrefl 0)
              | succ k'' =>
                rw [monEvents_cons, List.getElem?_cons_succ]
                exact hall k'' (Nat.succ_lt_succ_iff.mp hk2)
          | callEnded =>
            obtain ⟨_, _, _, hpost⟩ := monTick_ended_inv he0
            rw [hpost] at hs1rec
            simp at hs1rec

/-- Claim C1: For every sequence of samples with nondecreasing times, the
poll loop never issues the recorder start command (`callConfirmed`)
unless the elapsed time since the current session's first `true` sample
is at least `RECORDING_DELAY`, and never issues the recorder stop
command (`callEnded`) in a session in which the start command was not
previously issued (every `callEnded` is preceded by a `callConfirmed`
with no other event in between). -/
theorem monitor_events_sound (cdt rd : Nat) (samples : List (Nat × Bool))
    (hmono : List.Pairwise (fun x y : Nat × Bool => x.1 ≤ y.1) samples) :
    (∀ i : Nat, (monEvents cdt rd monInit samples)[i]? = some (some MonEvent.callConfirmed) →
       ∃ j : Nat, j ≤ i ∧
         (∃ y x, samples[j]? = some y ∧ samples[i]? = some x ∧ y.2 = true ∧
            rd ≤ x.1 - y.1) ∧
         (∀ k : Nat, ∀ z : Nat × Bool, j ≤ k → k ≤ i → samples[k]? = some z → z.2 = true) ∧
         (j = 0 ∨ ∃ w, samples[j - 1]? = some w ∧ w.2 = false)) ∧
    (∀ i : Nat, (monEvents cdt rd monInit samples)[i]? = some (some MonEvent.callEnded) →
       ∃ j : Nat, j < i ∧
         (monEvents cdt rd monInit samples)[j]? = some (some MonEvent.callConfirmed) ∧
         ∀ k : Nat, j < k → k < i → (monEvents cdt rd monInit samples)[k]? = some (none : Option MonEvent)) := by
  constructor
  · intro i h
    rcases monitor_confirm_gen cdt rd samples monInit i h with
      ⟨t, ht, _, _⟩ | ⟨j, hj, hxy, hall, _, hjsucc⟩
    · exact absurd ht (by simp [monInit])
    · refine ⟨j, hj, hxy, hall, ?_⟩
      cases j with
      | zero => exact Or.inl rfl
      | succ m =>
        right
        obtain ⟨w, hw, hwf⟩ := hjsucc m rfl
        exact ⟨w, by simpa using hw, hwf⟩
  · intro i h
    rcases monitor_ended_gen cdt rd samples monInit hmono
        (by intro t ht; simp [monInit] at ht)
        (by intro hr; simp [monInit] at hr) i h with
      hleft | ⟨hr, _⟩
    · exact hleft
    · simp [monInit] at hr

/-- Witness for `monitor_events_sound` on the concrete example trace. -/
theorem monitor_events_sound_witness :
    List.Pairwise (fun x y : Nat × Bool => x.1 ≤ y.1)
      [(0, false), (1, true), (2, true), (3, true), (4, true), (5, false)] ∧
    (monEvents 3 3 monInit
        [(0, false), (1, true), (2, true), (3, true), (4, true), (5, false)])[5]? =
      some (some MonEvent.callEnded) ∧
    (∃ j : Nat, j < 5 ∧
      (monEvents 3 3 monInit
        [(0, false), (1, true), (2, true), (3, true), (4, true), (5, false)])[j]? =
        some (some MonEvent.callConfirmed) ∧
      ∀ k : Nat, j < k → k < 5 →
        (monEvents 3 3 monInit
          [(0, false), (1, true), (2, true), (3, true), (4, true), (5, false)])[k]? =
          some (none : Option MonEvent)) :=
  ⟨by decide, by decide,
    (monitor_events_sound 3 3
      [(0, false), (1, true), (2, true), (3, true), (4, true), (5, false)]
      (by decide)).2 5 (by decide)⟩

/-- Claim C2: With `callDurationThreshold = 3`, `recordingDelay = 3` and
samples `[F,T,T,T,T,F]` at 1-second spacing, the loop issues no recorder
command before the 4th consecutive `T` tick, exactly one `Start()`
(`callConfirmed`) at that tick, and exactly one `Stop()` (`callEnded`)
at the following `F` tick. -/
theorem monitor_example_trace :
    monEvents 3 3 monInit
      [(0, false), (1, true), (2, true), (3, true), (4, true), (5, false)] =
      [none, none, none, none, some MonEvent.callConfirmed, some MonEvent.callEnded] := by
  decide

/-! ## Supervisor claims -/

/-- Claim C3 counterexample: At a state with `consecutive_errors = 1`, a
transport failure triggers the in-call restart although the incremented
counter (2) is still below `maxConsecutiveErrors = 3`, and the
preventive restart did not fire; the claimed "exactly when
`consecutiveErrors ≥ maxConsecutiveErrors`" rule is false. -/
theorem check_mic_restart_rule_counterexample :
    (check_mic 1 none ⟨true, 1, 0, 1⟩).preventiveRestart = false ∧
    (check_mic 1 none ⟨true, 1, 0, 1⟩).errorRestart = true ∧
    (⟨true, 1, 0, 1⟩ : CheckerState).consecutiveErrors + 1 < maxConsecutiveErrors := by
  decide

/-- Claim C3 amended: On a transport failure, `check_mic` returns
`false` (never propagating the error), increments
`consecutive_errors`, and triggers an immediate worker restart before
returning exactly when the incremented counter reaches the hardcoded
bound 2 — not `maxConsecutiveErrors = 3` — the restart resetting the
counter to 0. -/
theorem check_mic_failure_behavior (now : Nat) (s : CheckerState) :
    (check_mic now none s).result = false ∧
    (check_mic now none s).preventiveRestart = should_restart_worker s now ∧
    (check_mic now none s).errorRestart =
      decide (2 ≤ (if should_restart_worker s now then 0 else s.consecutiveErrors) + 1) ∧
    (check_mic now none s).state.consecutiveErrors =
      (if 2 ≤ (if should_restart_worker s now then 0 else s.consecutiveErrors) + 1
        then 0
        else (if should_restart_worker s now then 0 else s.consecutiveErrors) + 1) := by
  simp only [check_mic, start_worker]
  cases hpre : should_restart_worker s now <;>
    simp only [Bool.false_eq_true, if_false, if_true] <;>
    split_ifs <;> simp_all

/-- Claim C7: For a worker started at a nonzero time,
`should_restart_worker` returns `true` iff the worker is not alive, or
its age exceeds `maxWorkerLifetime`, or its check count exceeds
`maxChecksPerWorker`, or `consecutive_errors` is at least
`maxConsecutiveErrors`; in particular each threshold triggers in
isolation and it returns `false` when all are below threshold with the
worker alive. -/
theorem should_restart_worker_spec (s : CheckerState) (now : Nat)
    (h : 0 < s.workerStartTime) :
    should_restart_worker s now = true ↔
      (s.alive = false ∨ maxWorkerLifetime < now - s.workerStartTime ∨
        maxChecksPerWorker < s.checkCount ∨
        maxConsecutiveErrors ≤ s.consecutiveErrors) := by
  have hne : s.workerStartTime ≠ 0 := Nat.pos_iff_ne_zero.mp h
  simp only [should_restart_worker]
  split_ifs with h1 h2 h3 h4 <;> simp_all

/-- Witness for `should_restart_worker_spec`: a worker started at time 5
and probed at time 700 is restarted for age. -/
theorem should_restart_worker_spec_witness :
    0 < (5 : Nat) ∧
    (should_restart_worker ⟨true, 5, 0, 0⟩ 700 = true ↔
      ((true : Bool) = false ∨ maxWorkerLifetime < 700 - 5 ∨
        maxChecksPerWorker < 0 ∨ maxConsecutiveErrors ≤ 0)) :=
  ⟨by decide, should_restart_worker_spec ⟨true, 5, 0, 0⟩ 700 (by decide)⟩

/-- Helper: after any completed `check_mic` call, `consecutive_errors`
is at most 1 (the in-call restart at 2 resets it to 0). -/
theorem check_mic_post_errors_le_one (now : Nat) (o : Option Bool) (s : CheckerState) :
    (check_mic now o s).state.consecutiveErrors ≤ 1 := by
  simp only [check_mic, start_worker]
  cases o with
  | some b => cases hpre : should_restart_worker s now <;> simp
  | none =>
    cases hpre : should_restart_worker s now <;>
      simp only [Bool.false_eq_true, if_false, if_true] <;>
      split_ifs <;> simp_all

/-- Helper: along any run of `check_mic` calls, every pre-call state
keeps `consecutive_errors ≤ 1`. -/
theorem checkPreStates_errors_le_one :
    ∀ (calls : List (Nat × Option Bool)) (s : CheckerState),
      s.consecutiveErrors ≤ 1 →
      ∀ x ∈ checkPreStates s calls, x.consecutiveErrors ≤ 1 := by
  intro calls
  induction calls with
  | nil => intro s _ x hx; simp [checkPreStates] at hx
  | cons hd rest ih =>
    obtain ⟨now, o⟩ := hd
    intro s hs x hx
    simp only [checkPreStates, List.mem_cons] at hx
    rcases hx with rfl | hx
    · exact hs
    · exact ih (check_mic now o s).state (check_mic_post_errors_le_one now o s) x hx

/-- Claim C10: After every completed `check_mic` call,
`consecutive_errors` is at most 2 (in fact at most 1, because the
in-call restart at 2 consecutive errors calls `start_worker`, which
resets the counter to 0); consequently, along any run of `check_mic`
calls from a freshly initialised checker, the
`consecutive_errors ≥ maxConsecutiveErrors` condition of
`should_restart_worker` is never satisfied at any call entry. -/
theorem check_mic_error_cap :
    (∀ (now : Nat) (o : Option Bool) (s : CheckerState),
       (check_mic now o s).state.consecutiveErrors ≤ 2) ∧
    (∀ (t0 : Nat) (calls : List (Nat × Option Bool)),
       ∀ x ∈ checkPreStates (checkerInit t0) calls,
         x.consecutiveErrors < maxConsecutiveErrors) := by
  constructor
  · intro now o s
    exact le_trans (check_mic_post_errors_le_one now o s) (by omega)
  · intro t0 calls x hx
    have h0 : (checkerInit t0).consecutiveErrors ≤ 1 := by simp [checkerInit, start_worker]
    have := checkPreStates_errors_le_one calls (checkerInit t0) h0 x hx
    simp only [maxConsecutiveErrors]
    omega

/-- Witness for `check_mic_error_cap`: the first pre-call state of a
fresh checker's run has `consecutive_errors` below the restart bound. -/
theorem check_mic_error_cap_witness :
    checkerInit 0 ∈ checkPreStates (checkerInit 0) [(1, none)] ∧
    (checkerInit 0).consecutiveErrors < maxConsecutiveErrors :=
  ⟨by decide, check_mic_error_cap.2 0 [(1, none)] (checkerInit 0) (by decide)⟩

/-! ## Orchestrator fallback claims -/

/-- Claim C4: The orchestrator's fallback flag: once `use_fallback` is
set, every subsequent tick draws its probe value from the degraded WMI
path and the flag is never cleared; the flag is set (and the WMI value
used at once) on the tick where the orchestrator-level error counter
reaches `max_consecutive_errors = 10`; in particular 10 consecutive
raising ticks from a fresh state leave the flag set. -/
theorem orchestrator_fallback_latch :
    (∀ (s : OrchProbeState) (inputs : List (PrimaryOutcome × Bool × Bool)),
       s.useFallback = true →
       ∀ o ∈ orchRun s inputs,
         o.1.useFallback = true ∧ o.2.2 = ProbeSource.wmiFallback) ∧
    (∀ (s : OrchProbeState) (pe ok : Bool),
       s.useFallback = false → orchMaxConsecutiveErrors ≤ s.errorCount + 1 →
       orchProbeTick s PrimaryOutcome.raised pe ok =
         (⟨true, s.errorCount + 1⟩, check_sipgate_mic_wmi pe ok,
           ProbeSource.wmiFallback)) ∧
    (∀ pe ok : Bool,
       (orchFinal ⟨false, 0⟩
         (List.replicate orchMaxConsecutiveErrors
           (PrimaryOutcome.raised, pe, ok))).useFallback = true) := by
  refine ⟨?_, ?_, ?_⟩
  · intro s inputs hs
    induction inputs generalizing s with
    | nil => intro o ho; simp [orchRun] at ho
    | cons hd rest ih =>
      obtain ⟨p, pe, ok⟩ := hd
      intro o ho
      simp only [orchRun, List.mem_cons] at ho
      have htick : orchProbeTick s p pe ok =
          (s, check_sipgate_mic_wmi pe ok, ProbeSource.wmiFallback) := by
        simp [orchProbeTick, hs]
      rcases ho with rfl | ho
      · rw [htick]; exact ⟨hs, rfl⟩
      · rw [htick] at ho
        exact ih s hs o ho
  · intro s pe ok hs he
    simp [orchProbeTick, hs, if_pos he]
  · intro pe ok
    cases pe <;> cases ok <;> decide

/-- Witness for `orchestrator_fallback_latch`: with the flag set, a
tick keeps the flag and uses the WMI source. -/
theorem orchestrator_fallback_latch_witness :
    (⟨true, 0⟩ : OrchProbeState).useFallback = true ∧
    ((orchProbeTick ⟨true, 0⟩ (PrimaryOutcome.value true) false false).1.useFallback = true ∧
      (orchProbeTick ⟨true, 0⟩ (PrimaryOutcome.value true) false false).2.2 =
        ProbeSource.wmiFallback) :=
  ⟨rfl,
    orchestrator_fallback_latch.1 ⟨true, 0⟩ [(PrimaryOutcome.value true, false, false)] rfl
      (orchProbeTick ⟨true, 0⟩ (PrimaryOutcome.value true) false false) (by decide)⟩

/-! ## Worker process claims -/

/-- Claim C5 counterexample: The worker's voluntary self-limit
(`max_checks = 400` in `com_worker_process`) does not equal the
supervisor's usage threshold (`max_checks_per_worker = 500`): fed 500
`CHECK` commands, the worker serves only 400 and exits voluntarily. -/
theorem worker_self_limit_counterexample :
    comWorkerMaxChecks ≠ maxChecksPerWorker ∧
    (com_worker_loop 0
      (List.replicate maxChecksPerWorker (WorkerIn.cmdCheck (Except.ok true)))).2.1 =
      comWorkerMaxChecks ∧
    (com_worker_loop 0
      (List.replicate maxChecksPerWorker (WorkerIn.cmdCheck (Except.ok true)))).2.2 =
      WorkerExit.plannedRestart := by
  refine ⟨by decide, ?_, ?_⟩ <;> decide

/-- Claim C5 amended: The worker voluntarily exits after serving
`comWorkerMaxChecks = 400` `CHECK` commands — whenever the loop ends by
the self-limit, exactly 400 checks were served and the count never
exceeds 400 — but this self-limit is strictly below the supervisor's
`maxChecksPerWorker = 500` usage threshold: the two bounds do not
agree. -/
theorem worker_self_limit (ins : List WorkerIn) (count : Nat)
    (h : count ≤ comWorkerMaxChecks) :
    (com_worker_loop count ins).2.1 ≤ comWorkerMaxChecks ∧
    ((com_worker_loop count ins).2.2 = WorkerExit.plannedRestart →
      (com_worker_loop count ins).2.1 = comWorkerMaxChecks) ∧
    comWorkerMaxChecks < maxChecksPerWorker := by
  induction ins generalizing count with
  | nil =>
    simp only [com_worker_loop]
    split_ifs with hc
    · exact ⟨h, fun _ => show count = comWorkerMaxChecks by omega, by decide⟩
    · exact ⟨h, fun he => he.elim, by decide⟩
  | cons i rest ih =>
    cases i with
    | cmdCheck probe =>
      simp only [com_worker_loop]
      split_ifs with hc
      · exact ⟨h, fun _ => show count = comWorkerMaxChecks by omega, by decide⟩
      · exact ih (count + 1) (by omega)
    | cmdExit =>
      simp only [com_worker_loop]
      split_ifs with hc
      · exact ⟨h, fun _ => show count = comWorkerMaxChecks by omega, by decide⟩
      · exact ⟨h, fun he => he.elim, by decide⟩
    | queueTimeout =>
      simp only [com_worker_loop]
      split_ifs with hc
      · exact ⟨h, fun _ => show count = comWorkerMaxChecks by omega, by decide⟩
      · exact ih count h

/-- Witness for `worker_self_limit` at a fresh worker. -/
theorem worker_self_limit_witness :
    0 ≤ comWorkerMaxChecks ∧
    ((com_worker_loop 0 [WorkerIn.cmdExit]).2.1 ≤ comWorkerMaxChecks ∧
      ((com_worker_loop 0 [WorkerIn.cmdExit]).2.2 = WorkerExit.plannedRestart →
        (com_worker_loop 0 [WorkerIn.cmdExit]).2.1 = comWorkerMaxChecks) ∧
      comWorkerMaxChecks < maxChecksPerWorker) :=
  ⟨by decide, worker_self_limit [WorkerIn.cmdExit] 0 (by decide)⟩

/-- Helper: the drain empties any queue holding at most 10 items. -/
theorem drainQueue_eq_nil :
    ∀ (q : List QueueMsg) (n : Nat), q.length ≤ n → drainQueue n q = [] := by
  intro q
  induction q with
  | nil => intro n _; cases n <;> rfl
  | cons m rest ih =>
    intro n h
    cases n with
    | zero => simp at h
    | succ n' =>
      simp only [List.length_cons, Nat.succ_le_succ_iff] at h
      exact ih n' h

/-- Claim C8 counterexample: with no stale items in the queue and the
worker not yet blocked in its own `queue.get` (for example, still
initialising COM right after a restart), `check_mic`'s
`queue.get(timeout=3)` dequeues the `"CHECK"` string `check_mic` itself
just put — a value received within the timeout that is not a boolean,
refuting the claim that whatever `check_mic` receives within the
timeout is a boolean. -/
theorem check_mic_nonboolean_receipt_counterexample :
    check_mic_receive [] false true = some (QueueMsg.textMsg "CHECK") ∧
    ∀ b : Bool, QueueMsg.textMsg "CHECK" ≠ QueueMsg.boolVal b := by
  decide

/-- Claim C8 amended: every `CHECK` the worker serves yields exactly one
boolean response (one message per served `CHECK`, every message the
worker ever puts is a boolean, a raised probe answered `false`); but
because commands and responses share the single queue (`response_queue`
is unused) and `check_mic` drains stale items only before sending, a
value `check_mic` receives within the timeout is a boolean only in runs
where the worker consumed the `CHECK` and answered before `check_mic`'s
`get` — as when at most 10 stale items were drained — not in general. -/
theorem worker_check_responses :
    (∀ (count : Nat) (ins : List WorkerIn),
       (com_worker_loop count ins).2.1 = count + (com_worker_loop count ins).1.length ∧
       ∀ m ∈ (com_worker_loop count ins).1, ∃ b, m = QueueMsg.boolVal b) ∧
    (∀ (count : Nat) (probe : Except Unit Bool) (rest : List WorkerIn),
       count < comWorkerMaxChecks →
       (com_worker_loop count (WorkerIn.cmdCheck probe :: rest)).1.head? =
         some (QueueMsg.boolVal (probeResponse probe)) ∧
       probeResponse (Except.error ()) = false) ∧
    (∀ (stale : List QueueMsg) (resp : Bool),
       stale.length ≤ 10 →
       check_mic_receive stale true resp = some (QueueMsg.boolVal resp)) := by
  refine ⟨?_, ?_, ?_⟩
  · intro count ins
    induction ins generalizing count with
    | nil =>
      constructor
      · simp only [com_worker_loop]; split_ifs <;> simp
      · intro m hm
        simp only [com_worker_loop] at hm
        split_ifs at hm <;> simp at hm
    | cons i rest ih =>
      constructor
      · simp only [com_worker_loop]
        split_ifs with hc
        · simp
        · cases i with
          | cmdCheck probe =>
            have := (ih (count + 1)).1
            simp only [List.length_cons]
            omega
          | cmdExit => simp
          | queueTimeout => exact (ih count).1
      · intro m hm
        simp only [com_worker_loop] at hm
        split_ifs at hm with hc
        · simp at hm
        · cases i with
          | cmdCheck probe =>
            simp only [List.mem_cons] at hm
            rcases hm with rfl | hm
            · exact ⟨probeResponse probe, rfl⟩
            · exact (ih (count + 1)).2 m hm
          | cmdExit => simp at hm
          | queueTimeout => exact (ih count).2 m hm
  · intro count probe rest hc
    constructor
    · simp only [com_worker_loop]
      rw [if_neg (by omega)]
      rfl
    · rfl
  · intro stale resp h
    simp only [check_mic_receive, drainQueue_eq_nil stale 10 h]
    rfl

/-- Witness for `worker_check_responses`: one served `CHECK` yields one
response, a failed probe is answered `false`, and with an empty stale
queue and the worker answering first, `check_mic` receives the boolean
response. -/
theorem worker_check_responses_witness :
    (com_worker_loop 0 [WorkerIn.cmdCheck (Except.ok true)]).2.1 =
      0 + (com_worker_loop 0 [WorkerIn.cmdCheck (Except.ok true)]).1.length ∧
    (0 < comWorkerMaxChecks ∧
      (com_worker_loop 0 [WorkerIn.cmdCheck (Except.error ())]).1.head? =
        some (QueueMsg.boolVal (probeResponse (Except.error ())))) ∧
    (([] : List QueueMsg).length ≤ 10 ∧
      check_mic_receive [] true true = some (QueueMsg.boolVal true)) :=
  ⟨(worker_check_responses.1 0 [WorkerIn.cmdCheck (Except.ok true)]).1,
    ⟨by decide,
      (worker_check_responses.2.1 0 (Except.error ()) [] (by decide)).1⟩,
    ⟨by decide,
      worker_check_responses.2.2 [] true (by decide)⟩⟩

/-! ## Shutdown claims -/

/-- Claim C6 counterexample: In `src/sipgate_mic_monitor.py`, the
orchestrator's own shutdown path performs no recorder `Stop()` attempt
even when a recording session is in progress: the interrupt handler and
`finally` block only tear down the worker. -/
theorem shutdown_main_no_stop_counterexample :
    ShutdownAction.stopRecorder ∉ shutdownActionsMain true := by
  decide

/-- Claim C6 amended: Only `src/sipgate_mic_monitor_new.py` closes out an
in-progress recording on shutdown: its interrupt handler attempts one
recorder `Stop()` before the COM teardown when `recording` is set (and
no stop when it is not), whereas the process-isolated
`src/sipgate_mic_monitor.py` tears down the worker without attempting
any recorder `Stop()`. -/
theorem shutdown_stop_before_teardown :
    shutdownActionsNew true = [ShutdownAction.stopRecorder, ShutdownAction.teardownCom] ∧
    shutdownActionsNew false = [ShutdownAction.teardownCom] ∧
    shutdownActionsMain true = [ShutdownAction.teardownWorker] := by
  decide

/-! ## Worker lifecycle claims -/

/-- Claim C9 counterexample: `cleanup` never re-checks aliveness after
the final `kill()` + bounded `join(2)`: against a worker that survives
all three escalation steps within their bounded waits, `start_worker`
spawns a new worker process while the old one is still running — two
worker processes are then alive under the same checker. -/
theorem start_worker_overlap_counterexample :
    (start_worker_proc ⟨false, false, false⟩ ⟨some 0, [0], 1⟩).aliveWorkers = [1, 0] ∧
    2 ≤ (start_worker_proc ⟨false, false, false⟩ ⟨some 0, [0], 1⟩).aliveWorkers.length := by
  decide

/-- Claim C9 amended: `start_worker` always runs the full `cleanup`
escalation before spawning; whenever the old worker reacts to at least
one of the escalation steps (graceful `EXIT`, `terminate`, or `kill`,
each within its bounded join), the single-active-worker invariant is
preserved: after `start_worker` exactly the freshly spawned worker is
alive.  A worker surviving all three steps is abandoned without a final
aliveness confirmation. -/
theorem start_worker_single_instance (b : WorkerBehavior) (s : LifecycleState)
    (hresp : b.exitsOnGraceful = true ∨ b.diesOnTerminate = true ∨ b.diesOnKill = true)
    (hinv : OneWorkerInv s) :
    OneWorkerInv (start_worker_proc b s) ∧
    (start_worker_proc b s).aliveWorkers = [(cleanup_worker b s).nextId] := by
  obtain ⟨hlen, hown⟩ := hinv
  have hclean : (cleanup_worker b s).aliveWorkers = [] := by
    rcases hl : s.aliveWorkers with _ | ⟨w0, rest0⟩
    · -- no live worker: cleanup leaves the (empty) list unchanged
      cases hw : s.worker with
      | none => simp [cleanup_worker, hw, hl]
      | some w => simp [cleanup_worker, hw, hl]
    · -- exactly one live worker (by the invariant), owned by the handle
      have hrest0 : rest0 = [] := by
        rw [hl] at hlen
        simp only [List.length_cons] at hlen
        exact List.eq_nil_of_length_eq_zero (by omega)
      subst hrest0
      have hw0 : s.worker = some w0 := hown w0 (by rw [hl]; exact List.mem_cons_self _ _)
      simp only [cleanup_worker, hw0, hl]
      rcases hresp with hg | ht | hk
      · simp [hg, List.erase_cons_head]
      · cases hgb : b.exitsOnGraceful with
        | true => simp [List.erase_cons_head]
        | false => simp [ht, List.erase_cons_head]
      · cases hgb : b.exitsOnGraceful with
        | true => simp [List.erase_cons_head]
        | false =>
          cases htb : b.diesOnTerminate with
          | true => simp [List.erase_cons_head]
          | false => simp [hk, List.erase_cons_head]
  constructor
  · constructor
    · simp [start_worker_proc, hclean]
    · intro w hw
      simp only [start_worker_proc, hclean, List.mem_singleton] at hw ⊢
      simp [hw]
  · simp [start_worker_proc, hclean]

/-- Witness for `start_worker_single_instance`: a responsive worker is
stopped before its replacement is spawned. -/
theorem start_worker_single_instance_witness :
    ((true : Bool) = true ∨ (false : Bool) = true ∨ (false : Bool) = true) ∧
    OneWorkerInv ⟨some 0, [0], 1⟩ ∧
    (OneWorkerInv (start_worker_proc ⟨true, false, false⟩ ⟨some 0, [0], 1⟩) ∧
      (start_worker_proc ⟨true, false, false⟩ ⟨some 0, [0], 1⟩).aliveWorkers =
        [(cleanup_worker ⟨true, false, false⟩ ⟨some 0, [0], 1⟩).nextId]) :=
  ⟨Or.inl rfl, ⟨by decide, by decide⟩,
    start_worker_single_instance ⟨true, false, false⟩ ⟨some 0, [0], 1⟩ (Or.inl rfl)
      ⟨by decide, by decide⟩⟩

end RecordingTool
